import Mathlib

/-!
# Verification of the MCPBusinessAnalytics analysis engine

Shallow embedding of the core analysis functions of the repository
(`utils.py`, `analyzers/email_analyzer.py`, `analyzers/spreadsheet_analyzer.py`,
and the near-duplicate in-`main.py` variants), together with proofs settling
the specification claims.

Modelling conventions:
* Python strings are `List Char` (ASCII-oriented: `lower`, `isalnum` and the
  whitespace set are modelled for the ASCII range, which covers every keyword
  table and every claim input).
* Python numbers (`int`/`float`) are embedded as exact rationals `ℚ`; `round(x, 2)`
  is modelled exactly, with Python's round-half-to-even tie rule.
* Cell values of a spreadsheet row are a tagged variant `Value`
  (`None | bool | int | float | str`); a row is an association list in key
  insertion order, mirroring a Python dict.
* Fallible code (`float(...)` coercions, the raising `contains` branch of
  `filter_data`) is embedded with `Option`/`Except`.
-/

set_option maxHeartbeats 1000000

/-! ## Basic text utilities (Python string primitives) -/

/-- Shorthand to write character-list literals. -/
def toL (s : String) : List Char := s.toList

/-- Python `str.strip()` whitespace test, ASCII range
(space, tab, newline, carriage return, vertical tab, form feed). -/
def isPySpace (c : Char) : Bool :=
  c = ' ' ∨ c = '\t' ∨ c = '\n' ∨ c = '\r' ∨ c = '\x0b' ∨ c = '\x0c'

/-- Python `str.strip()`: remove leading and trailing whitespace. -/
def pyStrip (l : List Char) : List Char :=
  ((l.dropWhile isPySpace).reverse.dropWhile isPySpace).reverse

/-- Python `str.lower()` (ASCII letters; all keyword tables are ASCII). -/
def pyLower (l : List Char) : List Char := l.map Char.toLower

/-- `needle` starts `hay`. -/
def startsList : List Char → List Char → Bool
  | [], _ => true
  | _ :: _, [] => false
  | a :: n, b :: h => a = b && startsList n h

/-- Python `needle in hay` substring test. -/
def containsSub (needle : List Char) : List Char → Bool
  | [] => startsList needle []
  | c :: t => startsList needle (c :: t) || containsSub needle t

/-- Python `str.split(sep)` with a one-character separator: keeps empty parts. -/
def pySplitList (c : Char) : List Char → List (List Char)
  | [] => [[]]
  | x :: xs =>
    let r := pySplitList c xs
    if x = c then [] :: r
    else
      match r with
      | [] => [[x]]
      | p :: ps => (x :: p) :: ps

/-- Split a list at the first occurrence of `c`: returns the part strictly
before and the part strictly after, or `none` when `c` does not occur. -/
def splitFirst (c : Char) : List Char → Option (List Char × List Char)
  | [] => none
  | x :: xs =>
    if x = c then some ([], xs)
    else (splitFirst c xs).map (fun p => (x :: p.1, p.2))

/-- Python `str.split()` (no argument): whitespace-delimited tokens, empties
dropped.  `cur` is the reversed current token being accumulated. -/
def pyWordsAux (cur : List Char) : List Char → List (List Char)
  | [] => if cur = [] then [] else [cur.reverse]
  | c :: cs =>
    if isPySpace c then
      if cur = [] then pyWordsAux [] cs else cur.reverse :: pyWordsAux [] cs
    else pyWordsAux (c :: cur) cs

/-- Python `str.split()` with no argument. -/
def pyWords (l : List Char) : List (List Char) := pyWordsAux [] l

/-- Numeric value of a digit string (most significant first). -/
def digitsVal (cs : List Char) : ℕ :=
  cs.foldl (fun a c => a * 10 + (c.toNat - 48)) 0

/-- Python `float(s)` on a string: optional surrounding whitespace, optional
sign, decimal mantissa (digits, optionally with one point), optional
exponent.  Returns `none` when the string is not a float literal.
(Python additionally accepts `inf`/`nan` and `_` digit separators; those forms
produce no finite rational and do not occur in any claim, so they are outside
the model.) -/
def parseFloatStr (s : List Char) : Option ℚ :=
  let t := pyStrip s
  let sg : ℚ × List Char :=
    match t with
    | '+' :: r => (1, r)
    | '-' :: r => (-1, r)
    | _ => (1, t)
  let ip := sg.2.takeWhile Char.isDigit
  let t2 := sg.2.dropWhile Char.isDigit
  let fp : List Char × List Char :=
    match t2 with
    | '.' :: r => (r.takeWhile Char.isDigit, r.dropWhile Char.isDigit)
    | _ => ([], t2)
  if ip.isEmpty && fp.1.isEmpty then none
  else
    let mant : ℚ := sg.1 * ((digitsVal ip : ℚ) + (digitsVal fp.1 : ℚ) / ((10 : ℚ) ^ fp.1.length))
    match fp.2 with
    | [] => some mant
    | e :: r =>
      if e = 'e' ∨ e = 'E' then
        let es : Bool × List Char :=
          match r with
          | '+' :: r2 => (false, r2)
          | '-' :: r2 => (true, r2)
          | _ => (false, r)
        let ed := es.2.takeWhile Char.isDigit
        if ed.isEmpty ∨ ¬ (es.2.dropWhile Char.isDigit).isEmpty then none
        else some (if es.1 then mant / (10 : ℚ) ^ digitsVal ed else mant * (10 : ℚ) ^ digitsVal ed)
      else none

/-! ## Exact model of Python `round(x, 2)` -/

/-- Round a rational to the nearest integer, ties to even (Python's `round`). -/
def roundHalfEvenZ (q : ℚ) : ℤ :=
  let f := ⌊q⌋
  let r := q - f
  if r < 1/2 then f
  else if 1/2 < r then f + 1
  else if f % 2 = 0 then f else f + 1

/-- Python `round(x, 2)`, exactly, over rationals. -/
def round2 (q : ℚ) : ℚ := (roundHalfEvenZ (q * 100) : ℚ) / 100

/-! ## Spreadsheet cell values and rows -/

/-- A spreadsheet cell value: Python `None | bool | int | float | str`. -/
inductive Value where
  | vnull
  | vbool (b : Bool)
  | vint (n : ℤ)
  | vfloat (q : ℚ)
  | vstr (s : List Char)
deriving DecidableEq, Repr

/-- A row: a Python dict from column name to cell value, as an association
list in key insertion order. -/
def Row := List (String × Value)

instance : DecidableEq Row := by unfold Row; infer_instance

/-- Python `row.get(column)`: the stored value, or `None` when the key is
absent. -/
def rowGet (r : Row) (c : String) : Value :=
  match List.find? (fun p => p.1 = c) r with
  | some p => p.2
  | none => Value.vnull

/-- Python `column in row` on a dict. -/
def hasKey (r : Row) (c : String) : Bool := r.any (fun p => p.1 = c)

/-- Numeric view shared by Python `bool`/`int`/`float` (a Python `bool` is an
`int`: `True == 1`). -/
def numView : Value → Option ℚ
  | .vbool b => some (if b then 1 else 0)
  | .vint n => some (n : ℚ)
  | .vfloat q => some q
  | _ => none

/-- Python `==` on cell values: numeric types compare by value across
`bool`/`int`/`float`; `None` and strings only equal their own kind. -/
def pyEq (a b : Value) : Bool :=
  match numView a, numView b with
  | some x, some y => x = y
  | _, _ =>
    match a, b with
    | .vnull, .vnull => true
    | .vstr s, .vstr t => s = t
    | _, _ => false

/-- Python `float(v)`: `None` raises (`none`); `bool`/`int`/`float` convert;
strings are parsed as float literals. -/
def pyFloat : Value → Option ℚ
  | .vnull => none
  | .vbool b => some (if b then 1 else 0)
  | .vint n => some (n : ℚ)
  | .vfloat q => some q
  | .vstr s => parseFloatStr s

/-- Fractional decimal digits of `x ∈ [0, 1)` with bounded depth (used only by
`pyStr` on floats; Python's shortest-repr float printing is abstracted by an
exact decimal expansion cut at 17 digits, which no claim depends on). -/
def fracDigitList : ℕ → ℚ → List Char
  | 0, _ => []
  | fuel + 1, x =>
    if x = 0 then []
    else
      let y := x * 10
      let d := (⌊y⌋).toNat
      Char.ofNat (48 + d) :: fracDigitList fuel (y - (⌊y⌋ : ℚ))

/-- Python `str(v)` on a cell value. -/
def pyStr : Value → List Char
  | .vnull => toL "None"
  | .vbool b => if b then toL "True" else toL "False"
  | .vint n => toL (toString n)
  | .vfloat q =>
    let sign : List Char := if q < 0 then ['-'] else []
    let a := if q < 0 then -q else q
    let fr := fracDigitList 17 (a - (⌊a⌋ : ℚ))
    sign ++ toL (toString (⌊a⌋)) ++ '.' :: (if fr = [] then ['0'] else fr)
  | .vstr s => s

/-! ## Small list facts used for termination and proofs -/

theorem length_dropWhile_le_self (p : Char → Bool) (l : List Char) :
    (l.dropWhile p).length ≤ l.length := by
  induction l with
  | nil => simp [List.dropWhile]
  | cons c cs ih =>
    simp only [List.dropWhile]
    split
    · exact Nat.le_succ_of_le ih
    · simp

/-! ## `utils.py`: keyword tables -/

/-- `STOP_WORDS` from `utils.py`. -/
def STOP_WORDS : List (List Char) :=
  [toL "the", toL "a", toL "an", toL "and", toL "or", toL "but", toL "in", toL "on",
   toL "at", toL "to", toL "for", toL "of", toL "with", toL "is", toL "be", toL "that",
   toL "this", toL "it", toL "from", toL "by", toL "as", toL "are", toL "was", toL "were",
   toL "been", toL "being", toL "have", toL "has", toL "had", toL "do", toL "does",
   toL "did", toL "will", toL "would", toL "could", toL "should", toL "may", toL "might",
   toL "can", toL "must", toL "shall"]

/-- `URGENCY_KEYWORDS` from `utils.py`. -/
def URGENCY_KEYWORDS : List (List Char) :=
  [toL "urgent", toL "asap", toL "critical", toL "emergency", toL "immediately",
   toL "deadline", toL "priority", toL "rush", toL "quick", toL "fast", toL "now",
   toL "today"]

/-- `TONE_INDICATORS` from `utils.py`, in dict insertion order. -/
def TONE_INDICATORS : List (List Char × List (List Char)) :=
  [(toL "formal",
    [toL "dear", toL "sincerely", toL "regards", toL "professional", toL "meeting",
     toL "proposal", toL "hereby"]),
   (toL "casual",
    [toL "hi", toL "hey", toL "thanks", toL "cheers", toL "lol", toL "cool",
     toL "awesome"]),
   (toL "negative",
    [toL "problem", toL "issue", toL "error", toL "failed", toL "disappointed",
     toL "concern", toL "complaint"]),
   (toL "positive",
    [toL "great", toL "excellent", toL "success", toL "happy", toL "appreciate",
     toL "thank you", toL "wonderful"])]

/-- `ACTION_KEYWORDS` from `utils.py`. -/
def ACTION_KEYWORDS : List (List Char) :=
  [toL "please", toL "need", toL "can you", toL "could you", toL "will you",
   toL "would you", toL "should", toL "must", toL "required", toL "action",
   toL "do this", toL "implement"]

/-! ## `utils.py`: functions -/

/-- `parse_email_address` from `utils.py`: match
`^([^<]+)<([^>]+)>$` against the stripped string; on a match return both
groups stripped, otherwise `('', stripped string)`.  The regex matches
exactly when the stripped string is `a ++ "<" ++ b ++ ">"` with `a` nonempty
and `<`-free and `b` nonempty and `>`-free, so it is embedded by splitting at
the first `<` and then at the first `>`. -/
def parse_email_address (s : List Char) : List Char × List Char :=
  let t := pyStrip s
  match splitFirst '<' t with
  | none => ([], t)
  | some (a, rest) =>
    match splitFirst '>' rest with
    | some (b, tail) =>
      if a ≠ [] ∧ b ≠ [] ∧ tail = [] then (pyStrip a, pyStrip b) else ([], t)
    | none => ([], t)

/-- `extract_domain` from `utils.py`:
`email.split('@')[1] if '@' in email else 'unknown'`. -/
def extract_domain (email : List Char) : List Char :=
  if email.contains '@' then ((pySplitList '@' email).getD 1 []) else toL "unknown"

/-- One match of the recipient-splitting regex `([^<,]*)<([^>]+)>|([^,]+)`. -/
inductive RecipMatch where
  | angle (g1 g2 : List Char)
  | plain (g3 : List Char)
deriving DecidableEq, Repr

/-- `x` is neither `<` nor `,` (the `[^<,]` class). -/
def notStop (x : Char) : Bool := ¬ (x = '<' ∨ x = ',')

/-- `x` is not `>` (the `[^>]` class). -/
def notGt (x : Char) : Bool := x ≠ '>'

/-- `x` is not `,` (the `[^,]` class). -/
def notComma (x : Char) : Bool := x ≠ ','

/-- The scan of `re.finditer(r'([^<,]*)<([^>]+)>|([^,]+)', s)`: at each
position first try the angle-bracket alternative (a `<`-and-`,`-free prefix,
a literal `<`, a nonempty `>`-free group, a literal `>`), else the plain
alternative (a nonempty `,`-free run); when neither matches advance one
character.  Every step continues on a strictly shorter suffix, so running
with fuel equal to the input length (as `scanRecipients` below does) is
exact; the fuel argument only discharges termination. -/
def scanRecipientsF : ℕ → List Char → List RecipMatch
  | 0, _ => []
  | _, [] => []
  | fuel + 1, c :: rest =>
    match (c :: rest).dropWhile notStop with
    | '<' :: r2 =>
      match r2.dropWhile notGt with
      | '>' :: r4 =>
        if r2.takeWhile notGt = [] then
          if c = ',' then scanRecipientsF fuel rest
          else .plain ((c :: rest).takeWhile notComma) ::
            scanRecipientsF fuel ((c :: rest).dropWhile notComma)
        else
          .angle ((c :: rest).takeWhile notStop) (r2.takeWhile notGt) ::
            scanRecipientsF fuel r4
      | _ =>
        if c = ',' then scanRecipientsF fuel rest
        else .plain ((c :: rest).takeWhile notComma) ::
          scanRecipientsF fuel ((c :: rest).dropWhile notComma)
    | _ =>
      if c = ',' then scanRecipientsF fuel rest
      else .plain ((c :: rest).takeWhile notComma) ::
        scanRecipientsF fuel ((c :: rest).dropWhile notComma)

/-- The full regex scan over the input. -/
def scanRecipients (l : List Char) : List RecipMatch := scanRecipientsF l.length l

/-- A parsed recipient entry: `{name, email, domain}`. -/
structure Recipient where
  name : List Char
  email : List Char
  domain : List Char
deriving DecidableEq, Repr

/-- `parse_recipients` from `utils.py`: scan the comma-separated recipient
string with the regex, keep entries whose resolved email is nonempty.
For an angle-bracket match, `match.group(1) or match.group(2)` is truthy
(group 2 is nonempty), the name is group 1 stripped when group 1 is nonempty
(Python truthiness of `''`) else `''`; for a plain match the whole segment is
the email with an empty name.  The domain is
`email.split('@')[1] if '@' in email else 'unknown'` (inlined in the source). -/
def parse_recipients (s : List Char) : List Recipient :=
  if s = [] then []
  else
    (scanRecipients s).filterMap (fun m =>
      match m with
      | .angle g1 g2 =>
        let name := if g1 ≠ [] then pyStrip g1 else []
        let email := pyStrip g2
        if email ≠ [] then
          some ⟨name, email,
            if email.contains '@' then (pySplitList '@' email).getD 1 [] else toL "unknown"⟩
        else none
      | .plain g3 =>
        let email := pyStrip g3
        if email ≠ [] then
          some ⟨[], email,
            if email.contains '@' then (pySplitList '@' email).getD 1 [] else toL "unknown"⟩
        else none)

/-- Python `w.isalnum()` for ASCII tokens: nonempty and all characters are
letters or digits. -/
def pyIsAlnum (w : List Char) : Bool :=
  ¬ w.isEmpty && w.all (fun c => c.isAlpha || c.isDigit)

/-- Count occurrences in insertion order, as a Python dict
`word_freq[word] = word_freq.get(word, 0) + 1` does. -/
def bumpFreq (m : List (List Char × ℕ)) (w : List Char) : List (List Char × ℕ) :=
  match m with
  | [] => [(w, 1)]
  | (k, c) :: rest => if k = w then (k, c + 1) :: rest else (k, c) :: bumpFreq rest w

/-- Stable descending insertion by count: the element goes after every
existing element with a count at least as large (the behavior of Python's
stable `sorted(..., key=lambda x: x[1], reverse=True)`). -/
def insertByCountDesc (x : List Char × ℕ) :
    List (List Char × ℕ) → List (List Char × ℕ)
  | [] => [x]
  | y :: ys => if y.2 < x.2 then x :: y :: ys else y :: insertByCountDesc x ys

/-- Stable sort by descending count. -/
def sortByCountDesc (l : List (List Char × ℕ)) : List (List Char × ℕ) :=
  l.foldl (fun acc x => insertByCountDesc x acc) []

/-- `extract_key_topics` from `utils.py`: lower-case, whitespace-split, keep
alphanumeric non-stop-words longer than 3 characters, count frequencies, and
return the words of count at least 2 in stable descending count order,
truncated to `top_n`. -/
def extract_key_topics (text : List Char) (top_n : ℕ) : List (List Char) :=
  let words := (pyWords (pyLower text)).filter
    (fun w => pyIsAlnum w && ¬ STOP_WORDS.contains w && decide (3 < w.length))
  let word_freq := words.foldl bumpFreq []
  (((sortByCountDesc word_freq).filter (fun p => 2 ≤ p.2)).map Prod.fst).take top_n

/-- `detect_tone` from `utils.py`: for each tone category in declaration
order, include it when any of its keywords occurs in the lower-cased text;
default to `['neutral']`. -/
def detect_tone (text : List Char) : List (List Char) :=
  let text_lower := pyLower text
  let detected := TONE_INDICATORS.foldl
    (fun acc p => if p.2.any (fun kw => containsSub kw text_lower) then acc ++ [p.1] else acc)
    []
  if detected = [] then [toL "neutral"] else detected

/-- `detect_urgency` from `utils.py`. -/
def detect_urgency (text : List Char) : Bool :=
  URGENCY_KEYWORDS.any (fun kw => containsSub kw (pyLower text))

/-- `extract_action_items` from `utils.py`: stripped lines containing any
action keyword (case-insensitively), truncated to `max_items`. -/
def extract_action_items (text : List Char) (max_items : ℕ) : List (List Char) :=
  (((pySplitList '\n' text).filter
      (fun line => ACTION_KEYWORDS.any (fun kw => containsSub kw (pyLower line)))).map
    pyStrip).take max_items

/-! ## `analyzers/email_analyzer.py` -/

/-- The content-analysis record returned by `analyze_email_content`. -/
structure ContentAnalysis where
  word_count : ℕ
  character_count : ℕ
  question_count : ℕ
  has_urgency : Bool
  detected_tone : List (List Char)
  key_topics : List (List Char)
  estimated_read_time_seconds : ℕ
  action_item_count : ℕ
  action_items : List (List Char)
deriving DecidableEq, Repr

/-- Sender record `{name, email, domain}`. -/
structure SenderInfo where
  name : List Char
  email : List Char
  domain : List Char
deriving DecidableEq, Repr

/-- Recipient record `{to, cc, bcc}` (`to` is a reserved token in Lean,
hence the trailing underscore). -/
structure RecipientInfo where
  to_ : List Recipient
  cc : List Recipient
  bcc : List Recipient
deriving DecidableEq, Repr

/-- The composite result of `analyze_email`. -/
structure EmailAnalysis where
  sender : SenderInfo
  recipients : RecipientInfo
  content_analysis : ContentAnalysis
  timestamp : List Char
deriving DecidableEq, Repr

namespace Analyzer

/-- `extract_sender_info` from `analyzers/email_analyzer.py`, on the `from`
field (`analyze_email` always supplies it; `'' or ...get('sender','')` is
`''` either way for an empty sender). -/
def extract_sender_info (email_from : List Char) : SenderInfo :=
  let p := parse_email_address email_from
  ⟨p.1, p.2, extract_domain p.2⟩

/-- `extract_recipient_info` from `analyzers/email_analyzer.py`. -/
def extract_recipient_info (email_to email_cc email_bcc : List Char) : RecipientInfo :=
  ⟨parse_recipients email_to, parse_recipients email_cc, parse_recipients email_bcc⟩

/-- `analyze_email_content` from `analyzers/email_analyzer.py`. -/
def analyze_email_content (subject body : List Char) : ContentAnalysis :=
  let full_text := subject ++ ' ' :: body
  let word_count := (pyWords body).length
  let action_items := extract_action_items body 3
  { word_count := word_count
    character_count := body.length
    question_count := body.count '?'
    has_urgency := detect_urgency full_text
    detected_tone := detect_tone full_text
    key_topics := extract_key_topics body 5
    estimated_read_time_seconds := max 10 (word_count / 200 * 60)
    action_item_count := action_items.length
    action_items := action_items }

/-- `analyze_email` from `analyzers/email_analyzer.py`.  The single impure
input, `datetime.now().isoformat()`, is passed explicitly as `now`. -/
def analyze_email (now : List Char) (email_from email_to email_subject email_body : List Char)
    (email_cc : List Char := []) (email_bcc : List Char := []) : EmailAnalysis :=
  { sender := extract_sender_info email_from
    recipients := extract_recipient_info email_to email_cc email_bcc
    content_analysis := analyze_email_content email_subject email_body
    timestamp := now }

end Analyzer

/-! ## The near-duplicate content analyzer inlined in `main.py` -/

namespace MainPy

/-- The urgency keyword list inlined in `main.py` (8 entries). -/
def urgency_keywords : List (List Char) :=
  [toL "urgent", toL "asap", toL "critical", toL "emergency", toL "immediately",
   toL "deadline", toL "priority", toL "rush"]

/-- The tone-indicator table inlined in `main.py`. -/
def tone_indicators : List (List Char × List (List Char)) :=
  [(toL "formal",
    [toL "dear", toL "sincerely", toL "regards", toL "professional", toL "meeting",
     toL "proposal"]),
   (toL "casual",
    [toL "hi", toL "hey", toL "thanks", toL "cheers", toL "lol", toL "cool"]),
   (toL "negative",
    [toL "problem", toL "issue", toL "error", toL "failed", toL "disappointed",
     toL "concern", toL "complaint"]),
   (toL "positive",
    [toL "great", toL "excellent", toL "success", toL "happy", toL "appreciate",
     toL "thank you"])]

/-- The stop-word set inlined in `main.py`. -/
def stop_words : List (List Char) :=
  [toL "the", toL "a", toL "an", toL "and", toL "or", toL "but", toL "in", toL "on",
   toL "at", toL "to", toL "for", toL "of", toL "with", toL "is", toL "be", toL "that",
   toL "this", toL "it", toL "from"]

/-- The action keyword list inlined in `main.py` (9 entries). -/
def action_keywords : List (List Char) :=
  [toL "please", toL "need", toL "can you", toL "could you", toL "will you",
   toL "would you", toL "should", toL "must", toL "required"]

/-- The action-item lines of a body in the `main.py` variant: every
newline-separated line containing an action keyword case-insensitively
(before any truncation). -/
def actionLines (body : List Char) : List (List Char) :=
  (pySplitList '\n' body).filter
    (fun line => action_keywords.any (fun kw => containsSub kw (pyLower line)))

/-- `analyze_email_content` as inlined in `main.py`.  It differs from the
analyzer-module version in its keyword tables, in lower-casing `full_text`
once up front, and in reporting `action_item_count = len(action_items)` over
the untruncated list while returning only `action_items[:3]`. -/
def analyze_email_content (subject body : List Char) : ContentAnalysis :=
  let full_text := pyLower (subject ++ ' ' :: body)
  let word_count := (pyWords body).length
  let detected_tone := tone_indicators.foldl
    (fun acc p => if p.2.any (fun kw => containsSub kw full_text) then acc ++ [p.1] else acc)
    []
  let words := (pyWords (pyLower body)).filter
    (fun w => pyIsAlnum w && ¬ stop_words.contains w && decide (3 < w.length))
  let word_freq := words.foldl bumpFreq []
  let key_topics := (((sortByCountDesc word_freq).filter (fun p => 2 ≤ p.2)).map Prod.fst).take 5
  let action_items := (actionLines body).map pyStrip
  { word_count := word_count
    character_count := body.length
    question_count := body.count '?'
    has_urgency := urgency_keywords.any (fun kw => containsSub kw full_text)
    detected_tone := if detected_tone = [] then [toL "neutral"] else detected_tone
    key_topics := key_topics
    estimated_read_time_seconds := max 10 (word_count / 200 * 60)
    action_item_count := action_items.length
    action_items := action_items.take 3 }

end MainPy

/-! ## `analyzers/spreadsheet_analyzer.py` -/

/-- `⌊√q⌋` for a nonnegative rational, computed via `Nat.sqrt` on `⌊q⌋`
(valid because `⌊√x⌋ = ⌊√⌊x⌋⌋` for `x ≥ 0`). -/
def sqrtFloorQ (q : ℚ) : ℕ := Nat.sqrt (⌊q⌋).toNat

/-- Round `√q` (for `q ≥ 0`) to the nearest natural number, ties to even:
the exact-rational counterpart of Python's `round(q ** 0.5)`.  The tie test
compares `4q` with `(2f+1)²`, i.e. `√q` with `f + 1/2`. -/
def roundHalfSqrt (q : ℚ) : ℕ :=
  let f := sqrtFloorQ q
  let half : ℚ := ((2 * f + 1 : ℕ) : ℚ)
  if 4 * q < half ^ 2 then f
  else if half ^ 2 < 4 * q then f + 1
  else if f % 2 = 0 then f else f + 1

/-- `round(v ** 0.5, 2)` computed exactly over rationals: round `100√v` to
the nearest integer and divide by 100.  This is the value the source stores
as `std_dev` (with `v` the variance), stated without real square roots. -/
def round2sqrt (v : ℚ) : ℚ := (roundHalfSqrt (10000 * v) : ℚ) / 100

/-- The numeric-statistics record of `analyze_numeric_column`. -/
structure ColumnStats where
  column : String
  count : ℕ
  sum : ℚ
  mean : ℚ
  median : ℚ
  min : ℚ
  max : ℚ
  range : ℚ
  std_dev : ℚ
  q1 : Option ℚ
  q3 : Option ℚ
deriving DecidableEq, Repr

/-- Result of `analyze_numeric_column`: statistics, or the error record
`{'error': ...}` when the column has no numeric values. -/
inductive NumericResult where
  | error (msg : String)
  | stats (s : ColumnStats)
deriving DecidableEq, Repr

/-- `val is not None and isinstance(val, (int, float))`: in Python a `bool`
is an `int`, so booleans pass this test; strings (even numeric ones) and
`None` do not. -/
def isNumPy : Value → Bool
  | .vbool _ => true
  | .vint _ => true
  | .vfloat _ => true
  | _ => false

/-- `float(val)` restricted to values passing `isNumPy`. -/
def numCoerce : Value → ℚ
  | .vbool b => if b then 1 else 0
  | .vint n => (n : ℚ)
  | .vfloat q => q
  | _ => 0

/-- The list `values` collected by `analyze_numeric_column`: the coerced
`int`/`float`-typed cells of the column, in row order. -/
def numericValues (data : List Row) (column : String) : List ℚ :=
  data.filterMap (fun row =>
    let v := rowGet row column
    if isNumPy v then some (numCoerce v) else none)

/-- `analyze_numeric_column` from `analyzers/spreadsheet_analyzer.py`. -/
def analyze_numeric_column (data : List Row) (column : String) : NumericResult :=
  let values := numericValues data column
  if values = [] then
    .error ("No numeric values found in column " ++ column)
  else
    let vs := List.insertionSort (· ≤ ·) values
    let n := vs.length
    let sum_val := vs.sum
    let mean := sum_val / (n : ℚ)
    let median :=
      if n % 2 = 0 then (vs.getD (n / 2 - 1) 0 + vs.getD (n / 2) 0) / 2
      else vs.getD (n / 2) 0
    let variance := (vs.map (fun x => (x - mean) ^ 2)).sum / (n : ℚ)
    .stats
      { column := column
        count := n
        sum := sum_val
        mean := round2 mean
        median := round2 median
        min := vs.headD 0
        max := vs.getLastD 0
        range := vs.getLastD 0 - vs.headD 0
        std_dev := round2sqrt variance
        q1 := if 3 < n then some (round2 (vs.getD (n / 4) 0)) else none
        q3 := if 3 < n then some (round2 (vs.getD (3 * n / 4) 0)) else none }

/-- The row predicate of `filter_data`'s four numeric-comparison branches:
`float(cell) CMP float(value)` evaluated under `try/except`, `false` (row
dropped) when either coercion fails.  `cmp a b` receives the coerced cell as
`a` and the coerced comparison value as `b`. -/
def numCmpPred (column : String) (value : Value) (cmp : ℚ → ℚ → Bool) (row : Row) : Bool :=
  match pyFloat (rowGet row column), pyFloat value with
  | some a, some b => cmp a b
  | _, _ => false

/-- `column in (data[0] if data else {})`: the first guard of `filter_data`. -/
def colPresent (data : List Row) (column : String) : Bool :=
  match data with
  | [] => false
  | r :: _ => hasKey r column

/-- The `contains` branch of `filter_data`: `value in str(cell).lower()`.
Python's `in` raises `TypeError` when `value` is not a string. -/
def containsFilter (data : List Row) (column : String) : Value → Except String (List Row)
  | .vstr v => .ok (data.filter (fun row => containsSub v (pyLower (pyStr (rowGet row column)))))
  | _ => .error "TypeError: argument of type is not iterable over a non-string"

/-- `filter_data` from `analyzers/spreadsheet_analyzer.py`.  The numeric
operators coerce both sides with `float(...)` inside `try/except` and drop
the row on failure; `contains` evaluates `value in str(cell).lower()`, which
raises `TypeError` (uncaught) when `value` is not a string — embedded as
`Except.error`.  Unknown operators match no branch and yield the empty list. -/
def filter_data (data : List Row) (column : String) (operator : String) (value : Value) :
    Except String (List Row) :=
  if colPresent data column = false then .ok []
  else if operator = "=" ∨ operator = "==" then
    .ok (data.filter (fun row => pyEq (rowGet row column) value))
  else if operator = "!=" then
    .ok (data.filter (fun row => ¬ pyEq (rowGet row column) value))
  else if operator = ">" then
    .ok (data.filter (numCmpPred column value (fun a b => decide (b < a))))
  else if operator = "<" then
    .ok (data.filter (numCmpPred column value (fun a b => decide (a < b))))
  else if operator = ">=" then
    .ok (data.filter (numCmpPred column value (fun a b => decide (b ≤ a))))
  else if operator = "<=" then
    .ok (data.filter (numCmpPred column value (fun a b => decide (a ≤ b))))
  else if operator = "contains" then containsFilter data column value
  else .ok []

/-! ### `aggregate_data` -/

/-- Append `x` to the value list of the first group whose key compares
Python-equal to `key` (`groups[key].append(x)` on the insertion-ordered
dict). -/
def addVal (groups : List (Value × List ℚ)) (key : Value) (x : ℚ) : List (Value × List ℚ) :=
  match groups with
  | [] => []
  | (k, vs) :: rest => if pyEq k key then (k, vs ++ [x]) :: rest else (k, vs) :: addVal rest key x

/-- One loop iteration of `aggregate_data`'s grouping phase: register the
key if unseen (`groups[key] = []`), then append `float(value)` when the
coercion succeeds, or the sentinel `1` when it fails but the operation is
`count`; a `None` value is skipped before the coercion is attempted. -/
def aggStep (operation gb ac : String) (groups : List (Value × List ℚ)) (row : Row) :
    List (Value × List ℚ) :=
  let key := rowGet row gb
  let value := rowGet row ac
  let groups1 := if groups.any (fun p => pyEq p.1 key) then groups else groups ++ [(key, [])]
  if value = .vnull then groups1
  else
    match pyFloat value with
    | some x => addVal groups1 key x
    | none => if operation = "count" then addVal groups1 key 1 else groups1

/-- The grouping phase of `aggregate_data`. -/
def buildGroups (data : List Row) (gb ac operation : String) : List (Value × List ℚ) :=
  data.foldl (aggStep operation gb ac) []

/-- Python `min(values)` / `max(values)` on a nonempty list. -/
def listMin : List ℚ → ℚ
  | [] => 0
  | x :: xs => xs.foldl min x

/-- See `listMin`. -/
def listMax : List ℚ → ℚ
  | [] => 0
  | x :: xs => xs.foldl max x

/-- The result dict `{group_by: key, f'{operation}({aggregate_column})': result}`
of one group.  When the two dict keys coincide the later entry wins, as in a
Python dict literal. -/
def mkAggRow (gb : String) (key : Value) (name : String) (res : Value) : Row :=
  if gb = name then [(gb, res)] else [(gb, key), (name, res)]

/-- The reduction phase of `aggregate_data` for one group: empty groups are
skipped, unknown operations are skipped (`continue`), float results are
rounded to 2 decimals and the integer `count` result is not. -/
def groupResult (operation gb ac : String) (key : Value) (values : List ℚ) : Option Row :=
  if values = [] then none
  else
    let name := operation ++ "(" ++ ac ++ ")"
    if operation = "sum" then some (mkAggRow gb key name (.vfloat (round2 values.sum)))
    else if operation = "avg" ∨ operation = "average" then
      some (mkAggRow gb key name (.vfloat (round2 (values.sum / (values.length : ℚ)))))
    else if operation = "count" then some (mkAggRow gb key name (.vint values.length))
    else if operation = "min" then some (mkAggRow gb key name (.vfloat (round2 (listMin values))))
    else if operation = "max" then some (mkAggRow gb key name (.vfloat (round2 (listMax values))))
    else none

/-- `aggregate_data` from `analyzers/spreadsheet_analyzer.py`. -/
def aggregate_data (data : List Row) (group_by aggregate_column operation : String) : List Row :=
  (buildGroups data group_by aggregate_column operation).filterMap
    (fun g => groupResult operation group_by aggregate_column g.1 g.2)

/-! ## General lemmas -/

theorem foldl_append_filter_map {α β : Type} (q : α → Bool) (f : α → β) :
    ∀ (l : List α) (init : List β),
      l.foldl (fun acc x => if q x then acc ++ [f x] else acc) init
        = init ++ (l.filter q).map f := by
  intro l
  induction l with
  | nil => intro init; simp
  | cons x xs ih =>
    intro init
    simp only [List.foldl_cons, List.filter_cons]
    by_cases hx : q x = true
    · simp only [hx, if_true, ih, List.map_cons, List.append_assoc, List.singleton_append]
    · simp only [Bool.not_eq_true] at hx
      simp [hx, ih]

/-! ## Claim C2 -/

/-- C2: `analyze_numeric_column` returns a record with an error field (and no
statistics) exactly when the column holds zero values of Python `int`/`float`
type across the rows (a Python `bool` being an `int`, booleans count as
numeric); when at least one such value exists it returns the statistics
record.  The embedding is total, so no exception is ever raised. -/
theorem analyze_numeric_column_error_iff (data : List Row) (column : String) :
    ((∃ msg, analyze_numeric_column data column = .error msg) ↔
      ∀ row ∈ data, isNumPy (rowGet row column) = false) ∧
    ((¬ ∀ row ∈ data, isNumPy (rowGet row column) = false) →
      ∃ s, analyze_numeric_column data column = .stats s) := by
  have hempty : numericValues data column = [] ↔
      ∀ row ∈ data, isNumPy (rowGet row column) = false := by
    rw [numericValues, List.filterMap_eq_nil_iff]
    constructor
    · intro h row hrow
      have := h row hrow
      by_cases hn : isNumPy (rowGet row column) = true
      · simp [hn] at this
      · simpa using hn
    · intro h row hrow
      simp [h row hrow]
  constructor
  · rw [analyze_numeric_column]
    by_cases h : numericValues data column = []
    · simp only [h, if_true]
      exact ⟨fun _ => hempty.mp h, fun _ => ⟨_, rfl⟩⟩
    · simp only [h, if_false]
      constructor
      · rintro ⟨msg, hmsg⟩; exact absurd hmsg (by simp)
      · intro hall; exact absurd (hempty.mpr hall) h
  · intro hne
    have h : ¬ numericValues data column = [] := fun hc => hne (hempty.mp hc)
    rw [analyze_numeric_column]
    simp only [h, if_false]
    exact ⟨_, rfl⟩

/-- Witness for C2 at a concrete table: a column holding one string and one
integer is numeric, hence yields a statistics record. -/
theorem analyze_numeric_column_error_iff_witness :
    ∃ s, analyze_numeric_column [[("x", .vstr (toL "5"))], [("x", .vint 7)]] "x" = .stats s :=
  (analyze_numeric_column_error_iff [[("x", .vstr (toL "5"))], [("x", .vint 7)]] "x").2
    (by intro hall; exact absurd (hall [("x", .vint 7)] (by simp)) (by decide))

/-! ## Claim C6 -/

/-- A body made of `n` whitespace-delimited single-letter tokens. -/
def bodyTokens (n : ℕ) : List Char := (List.replicate n (toL "a ")).flatten

set_option maxRecDepth 10000

/-- C6: `analyze_email_content` reports
`estimated_read_time_seconds = max(10, (wordCount // 200) * 60)` where
`wordCount` is the number of whitespace-delimited tokens of the body; in
particular a 200-token body yields 60 and a 199-token body yields 10. -/
theorem estimated_read_time_spec :
    (∀ subject body,
        (Analyzer.analyze_email_content subject body).estimated_read_time_seconds
          = max 10 ((pyWords body).length / 200 * 60)) ∧
    (pyWords (bodyTokens 200)).length = 200 ∧
    (Analyzer.analyze_email_content [] (bodyTokens 200)).estimated_read_time_seconds = 60 ∧
    (pyWords (bodyTokens 199)).length = 199 ∧
    (Analyzer.analyze_email_content [] (bodyTokens 199)).estimated_read_time_seconds = 10 := by
  refine ⟨fun subject body => rfl, by decide, by decide, by decide, by decide⟩

/-! ## Claim C9 -/

/-- A body with four action-keyword lines (more than the truncation limit 3). -/
def fourActionLineBody : List Char := toL "please a\nplease b\nplease c\nplease d"

/-- C9: in the `main.py` variant of `analyze_email_content`,
`action_item_count` counts every newline-separated line of the body holding
an action keyword while `action_items` is truncated to the first 3, so a
body with four matching lines reports a count strictly larger than the
returned list; in the `analyzers/email_analyzer.py` variant the count always
equals the length of the returned list and is at most 3. -/
theorem action_item_count_variants :
    (∀ subject body,
        (MainPy.analyze_email_content subject body).action_item_count
            = (MainPy.actionLines body).length ∧
        (MainPy.analyze_email_content subject body).action_items
            = ((MainPy.actionLines body).map pyStrip).take 3) ∧
    ((MainPy.analyze_email_content [] fourActionLineBody).action_items.length
        < (MainPy.analyze_email_content [] fourActionLineBody).action_item_count) ∧
    (∀ subject body,
        (Analyzer.analyze_email_content subject body).action_item_count
            = (Analyzer.analyze_email_content subject body).action_items.length ∧
        (Analyzer.analyze_email_content subject body).action_item_count ≤ 3) := by
  refine ⟨fun subject body => ⟨by simp [MainPy.analyze_email_content], rfl⟩,
    by decide,
    fun subject body => ⟨rfl, ?_⟩⟩
  show (extract_action_items body 3).length ≤ 3
  rw [extract_action_items]
  simp

/-! ## Claim C7 -/

/-- C7: `detect_tone` never returns an empty sequence; it returns exactly the
tone categories, in the fixed declaration order
`formal, casual, negative, positive`, for which some keyword occurs
case-insensitively in the text, and `["neutral"]` when no category matches. -/
theorem detect_tone_spec (text : List Char) :
    detect_tone text ≠ [] ∧
    detect_tone text =
      (let matched := (TONE_INDICATORS.filter
          (fun p => p.2.any (fun kw => containsSub kw (pyLower text)))).map Prod.fst
       if matched = [] then [toL "neutral"] else matched) := by
  have h := foldl_append_filter_map
    (fun p : List Char × List (List Char) => p.2.any (fun kw => containsSub kw (pyLower text)))
    Prod.fst TONE_INDICATORS []
  simp only [List.nil_append] at h
  have h2 : detect_tone text =
      (let matched := (TONE_INDICATORS.filter
          (fun p => p.2.any (fun kw => containsSub kw (pyLower text)))).map Prod.fst
       if matched = [] then [toL "neutral"] else matched) := by
    simp only [detect_tone, h]
  refine ⟨?_, h2⟩
  rw [h2]
  dsimp only
  split
  · simp [toL]
  · assumption

/-! ## Claim C4 -/

theorem not_mem_filter_numCmpPred (data : List Row) (column : String) (value : Value)
    (row : Row) (cmp : ℚ → ℚ → Bool)
    (hfail : pyFloat (rowGet row column) = none ∨ pyFloat value = none) :
    row ∉ data.filter (numCmpPred column value cmp) := by
  intro hmem
  rw [List.mem_filter] at hmem
  have hp := hmem.2
  rw [numCmpPred] at hp
  rcases hfail with h | h
  · rw [h] at hp
    cases hv : pyFloat value <;> rw [hv] at hp <;> simp at hp
  · rw [h] at hp
    cases hv : pyFloat (rowGet row column) <;> rw [hv] at hp <;> simp at hp

/-- C4: for the operators `>`, `<`, `>=`, `<=`, `filter_data` coerces both
the cell and the comparison value with `float(...)`, and any row for which
either coercion fails is silently excluded: the call still returns a normal
(`Except.ok`) result and the row is not in it. -/
theorem filter_data_drops_uncoercible (data : List Row) (column : String)
    (operator : String) (value : Value) (row : Row)
    (hop : operator = ">" ∨ operator = "<" ∨ operator = ">=" ∨ operator = "<=")
    (hfail : pyFloat (rowGet row column) = none ∨ pyFloat value = none) :
    ∃ l, filter_data data column operator value = .ok l ∧ row ∉ l := by
  have hnm := not_mem_filter_numCmpPred data column value row
  rcases hop with h | h | h | h <;> subst h <;> rw [filter_data] <;>
    by_cases hcol : colPresent data column = false
  · rw [if_pos hcol]; exact ⟨[], rfl, by simp⟩
  · rw [if_neg hcol, if_neg (by decide), if_neg (by decide), if_pos (by decide)]
    exact ⟨_, rfl, hnm _ hfail⟩
  · rw [if_pos hcol]; exact ⟨[], rfl, by simp⟩
  · rw [if_neg hcol, if_neg (by decide), if_neg (by decide), if_neg (by decide),
      if_pos (by decide)]
    exact ⟨_, rfl, hnm _ hfail⟩
  · rw [if_pos hcol]; exact ⟨[], rfl, by simp⟩
  · rw [if_neg hcol, if_neg (by decide), if_neg (by decide), if_neg (by decide),
      if_neg (by decide), if_pos (by decide)]
    exact ⟨_, rfl, hnm _ hfail⟩
  · rw [if_pos hcol]; exact ⟨[], rfl, by simp⟩
  · rw [if_neg hcol, if_neg (by decide), if_neg (by decide), if_neg (by decide),
      if_neg (by decide), if_neg (by decide), if_pos (by decide)]
    exact ⟨_, rfl, hnm _ hfail⟩

/-- Witness for C4 at a concrete table: with operator `>` a row whose cell is
the non-numeric string `"abc"` is excluded without an error result. -/
theorem filter_data_drops_uncoercible_witness :
    ∃ l, filter_data [[("x", .vint 9)], [("x", .vstr (toL "abc"))]] "x" ">" (.vint 5) = .ok l ∧
      [("x", Value.vstr (toL "abc"))] ∉ l :=
  filter_data_drops_uncoercible [[("x", .vint 9)], [("x", .vstr (toL "abc"))]] "x" ">"
    (.vint 5) [("x", .vstr (toL "abc"))] (by decide) (by decide)

/-! ## Claim C10 -/

/-- C10: when the filter column is present in the first row, filtering with
operator `contains` and value `"none"` keeps every row whose cell in that
column is null: `str(None).lower()` is `"none"`, so the substring test
succeeds. -/
theorem filter_contains_none_keeps_null (data : List Row) (column : String) (row : Row)
    (hcol : colPresent data column = true) (hrow : row ∈ data)
    (hnull : rowGet row column = .vnull) :
    ∃ l, filter_data data column "contains" (.vstr (toL "none")) = .ok l ∧ row ∈ l := by
  rw [filter_data, if_neg (by simp [hcol]), if_neg (by decide), if_neg (by decide),
    if_neg (by decide), if_neg (by decide), if_neg (by decide), if_neg (by decide),
    if_pos (by decide), containsFilter]
  refine ⟨_, rfl, ?_⟩
  rw [List.mem_filter]
  exact ⟨hrow, by rw [hnull]; decide⟩

/-- Witness for C10 at a concrete table: the null-valued row is returned. -/
theorem filter_contains_none_keeps_null_witness :
    ∃ l, filter_data [[("x", .vint 1)], [("x", .vnull)]] "x" "contains"
        (.vstr (toL "none")) = .ok l ∧ [("x", Value.vnull)] ∈ l :=
  filter_contains_none_keeps_null [[("x", .vint 1)], [("x", .vnull)]] "x"
    [("x", .vnull)] (by decide) (by decide) (by decide)

/-! ## Claim C5: facts about `splitFirst` and `pySplitList` -/

theorem splitFirst_append (c : Char) (r : List Char) :
    ∀ (a : List Char), c ∉ a → splitFirst c (a ++ c :: r) = some (a, r) := by
  intro a
  induction a with
  | nil => intro _; simp [splitFirst]
  | cons x xs ih =>
    intro ha
    have hx : ¬ x = c := fun h => ha (by simp [h])
    rw [List.cons_append, splitFirst, if_neg hx, ih (fun h => ha (List.mem_cons_of_mem _ h))]
    rfl

theorem splitFirst_eq_some (c : Char) :
    ∀ (l a r : List Char), splitFirst c l = some (a, r) → l = a ++ c :: r ∧ c ∉ a := by
  intro l
  induction l with
  | nil => intro a r h; exact absurd h (by simp [splitFirst])
  | cons x xs ih =>
    intro a r h
    rw [splitFirst] at h
    by_cases hx : x = c
    · subst hx
      rw [if_pos rfl] at h
      obtain ⟨rfl, rfl⟩ : ([] : List Char) = a ∧ xs = r := by
        have := Option.some.inj h
        exact ⟨congrArg Prod.fst this, congrArg Prod.snd this⟩
      simp
    · rw [if_neg hx] at h
      cases hs : splitFirst c xs with
      | none => rw [hs] at h; exact Option.noConfusion h
      | some p =>
        rw [hs, Option.map_some'] at h
        obtain ⟨ha, hr⟩ : x :: p.1 = a ∧ p.2 = r := by
          have := Option.some.inj h
          exact ⟨congrArg Prod.fst this, congrArg Prod.snd this⟩
        obtain ⟨h1, h2⟩ := ih p.1 p.2 (by rw [hs])
        subst ha; subst hr
        refine ⟨by rw [List.cons_append, ← h1], ?_⟩
        intro hc
        rcases List.mem_cons.mp hc with h3 | h3
        · exact hx h3.symm
        · exact h2 h3

theorem pySplitList_ne_nil (c : Char) : ∀ l : List Char, pySplitList c l ≠ [] := by
  intro l
  induction l with
  | nil => simp [pySplitList]
  | cons x xs ih =>
    rw [pySplitList]
    by_cases hx : x = c
    · simp [hx]
    · rw [if_neg hx]
      cases h : pySplitList c xs with
      | nil => simp
      | cons p ps => simp

theorem pySplitList_cons_ne (c x : Char) (xs : List Char) (hx : ¬ x = c) :
    pySplitList c (x :: xs)
      = (x :: (pySplitList c xs).headD []) :: (pySplitList c xs).tail := by
  rw [pySplitList, if_neg hx]
  cases h : pySplitList c xs with
  | nil => exact absurd h (pySplitList_ne_nil c xs)
  | cons p ps => simp

theorem pySplitList_append (c : Char) (rest : List Char) :
    ∀ u : List Char, c ∉ u → pySplitList c (u ++ c :: rest) = u :: pySplitList c rest := by
  intro u
  induction u with
  | nil => intro _; simp [pySplitList]
  | cons x xs ih =>
    intro hu
    have hx : ¬ x = c := fun h => hu (by simp [h])
    rw [List.cons_append, pySplitList_cons_ne c x _ hx,
      ih (fun h => hu (List.mem_cons_of_mem _ h))]
    simp

theorem pySplitList_headD (c : Char) :
    ∀ l : List Char, (pySplitList c l).headD [] = l.takeWhile (fun x => decide (¬ x = c)) := by
  intro l
  induction l with
  | nil => simp [pySplitList]
  | cons x xs ih =>
    by_cases hx : x = c
    · subst hx
      rw [pySplitList]
      simp [List.takeWhile]
    · rw [pySplitList_cons_ne c x xs hx]
      simp only [List.headD_cons, List.takeWhile]
      rw [ih]
      simp [hx]

/-- C5 (amended): `parse_email_address` returns `(group1 stripped, group2
stripped)` exactly when the stripped input decomposes as
`a ++ "<" ++ b ++ ">"` with `a` nonempty and `<`-free and `b` nonempty and
`>`-free (the regex `^([^<]+)<([^>]+)>$`), and `("", input stripped)`
otherwise; `extract_domain` returns `"unknown"` when the email has no `@`,
and otherwise the segment of the email strictly between the first `@` and
the next `@` (i.e. `email.split('@')[1]`) — not everything after the first
`@`. -/
theorem parse_email_address_spec (s : List Char) :
    (∀ a b, pyStrip s = a ++ '<' :: (b ++ ['>']) → a ≠ [] → b ≠ [] →
        '<' ∉ a → '>' ∉ b → parse_email_address s = (pyStrip a, pyStrip b)) ∧
    ((¬ ∃ a b, pyStrip s = a ++ '<' :: (b ++ ['>']) ∧ a ≠ [] ∧ b ≠ [] ∧
        '<' ∉ a ∧ '>' ∉ b) → parse_email_address s = ([], pyStrip s)) ∧
    (∀ e : List Char,
        ('@' ∉ e → extract_domain e = toL "unknown") ∧
        (∀ u rest, e = u ++ '@' :: rest → '@' ∉ u →
          extract_domain e = rest.takeWhile (fun x => decide (¬ x = '@')))) ∧
    (Analyzer.extract_sender_info s).domain = extract_domain (parse_email_address s).2 := by
  refine ⟨?_, ?_, ?_, rfl⟩
  · intro a b hdec ha hb hna hnb
    have h1 : splitFirst '<' (pyStrip s) = some (a, b ++ ['>']) := by
      rw [hdec]; exact splitFirst_append '<' (b ++ ['>']) a hna
    have h2 : splitFirst '>' (b ++ ['>']) = some (b, []) :=
      splitFirst_append '>' [] b hnb
    rw [parse_email_address]
    simp only [h1, h2]
    rw [if_pos]
    exact ⟨ha, hb, by simp⟩
  · intro hno
    rw [parse_email_address]
    cases h1 : splitFirst '<' (pyStrip s) with
    | none => rfl
    | some p =>
      obtain ⟨a, rest⟩ := p
      dsimp only
      obtain ⟨hdec1, hfree1⟩ := splitFirst_eq_some '<' (pyStrip s) a rest (by rw [h1])
      cases h2 : splitFirst '>' rest with
      | none => rfl
      | some q =>
        obtain ⟨b, tail⟩ := q
        dsimp only
        obtain ⟨hdec2, hfree2⟩ := splitFirst_eq_some '>' rest b tail (by rw [h2])
        rw [if_neg]
        intro ⟨hne1, hne2, htail⟩
        exact hno ⟨a, b, by rw [hdec1, hdec2, htail], hne1, hne2, hfree1, hfree2⟩
  · intro e
    constructor
    · intro hno
      rw [extract_domain, if_neg]
      simp only [List.elem_iff]
      exact fun h => hno (by exact_mod_cast h)
    · intro u rest hdec hu
      rw [extract_domain, if_pos]
      · rw [hdec, pySplitList_append '@' rest u hu]
        cases h : pySplitList '@' rest with
        | nil => exact absurd h (pySplitList_ne_nil '@' rest)
        | cons p ps =>
          have := pySplitList_headD '@' rest
          rw [h] at this
          simp only [List.headD_cons] at this
          simp [this]
      · rw [hdec]
        simp [List.elem_iff]

/-- C5 counterexample: on `"x@y@z"` the address parses with empty name and
email `"x@y@z"`; the substring after the first `@` is `"y@z"`, but the code
(`email.split('@')[1]`) returns `"y"`, so the claimed domain law fails. -/
theorem extract_domain_counterexample :
    parse_email_address (toL "x@y@z") = ([], toL "x@y@z") ∧
    (∃ u rest, toL "x@y@z" = u ++ '@' :: rest ∧ '@' ∉ u ∧ rest = toL "y@z") ∧
    extract_domain (toL "x@y@z") = toL "y" ∧
    toL "y" ≠ toL "y@z" := by
  exact ⟨by decide, ⟨toL "x", toL "y@z", by decide, by decide, rfl⟩, by decide, by decide⟩

/-- Witness for C5 at the specification's own examples. -/
theorem parse_email_address_spec_witness :
    parse_email_address (toL "Jane Doe <jane@co.com>") = (toL "Jane Doe", toL "jane@co.com") ∧
    extract_domain (toL "jane@co.com") = toL "co.com" := by
  constructor
  · have h := (parse_email_address_spec (toL "Jane Doe <jane@co.com>")).1
      (toL "Jane Doe ") (toL "jane@co.com") (by decide) (by decide) (by decide)
      (by decide) (by decide)
    rw [h]; decide
  · have h := ((parse_email_address_spec []).2.2.1 (toL "jane@co.com")).2
      (toL "jane") (toL "co.com") (by decide) (by decide)
    rw [h]; decide

/-! ## Claim C8 -/

/-- C8: every analyzer operation is deterministic — in this embedding each is
a pure function, so identical inputs give identical outputs — and the
composite `analyze_email`, whose only impurity is the `datetime.now()` read
(passed explicitly as `now`), produces results that can differ only in the
`timestamp` field; under a fixed clock its output is identical too. -/
theorem analyzer_determinism
    (now1 now2 ef et es eb ec ebc : List Char)
    (data : List Row) (column operator : String) (value : Value) (gb ac op : String)
    (subject body : List Char) :
    (Analyzer.analyze_email now1 ef et es eb ec ebc).sender
        = (Analyzer.analyze_email now2 ef et es eb ec ebc).sender ∧
    (Analyzer.analyze_email now1 ef et es eb ec ebc).recipients
        = (Analyzer.analyze_email now2 ef et es eb ec ebc).recipients ∧
    (Analyzer.analyze_email now1 ef et es eb ec ebc).content_analysis
        = (Analyzer.analyze_email now2 ef et es eb ec ebc).content_analysis ∧
    (now1 = now2 →
      Analyzer.analyze_email now1 ef et es eb ec ebc
        = Analyzer.analyze_email now2 ef et es eb ec ebc) ∧
    Analyzer.analyze_email_content subject body
        = Analyzer.analyze_email_content subject body ∧
    filter_data data column operator value = filter_data data column operator value ∧
    analyze_numeric_column data column = analyze_numeric_column data column ∧
    aggregate_data data gb ac op = aggregate_data data gb ac op :=
  ⟨rfl, rfl, rfl, fun h => by rw [h], rfl, rfl, rfl, rfl⟩

/-- Witness for C8: at a fixed clock value the two composite runs coincide. -/
theorem analyzer_determinism_witness :
    Analyzer.analyze_email (toL "2026-10-12T00:00:00") (toL "a@b.c") (toL "d@e.f")
        (toL "subj") (toL "body") [] []
      = Analyzer.analyze_email (toL "2026-10-12T00:00:00") (toL "a@b.c") (toL "d@e.f")
        (toL "subj") (toL "body") [] [] :=
  (analyzer_determinism (toL "2026-10-12T00:00:00") (toL "2026-10-12T00:00:00")
    (toL "a@b.c") (toL "d@e.f") (toL "subj") (toL "body") [] []
    [] "c" "=" .vnull "g" "a" "avg" [] []).2.2.2.1 rfl

/-! ## Claim C3 -/

/-- Projection of the `sum` field of a statistics result. -/
def statsSum : NumericResult → Option ℚ
  | .stats s => some s.sum
  | .error _ => none

/-- C3 counterexample: on the column `[1.001, 2.002]` the exact sum is
`3.003`, whose 2-decimal rounding is `3.0`; the code stores the unrounded
`3.003` in the `sum` field, so `sum` is *not* rounded to 2 decimals as
claimed. -/
theorem analyze_numeric_column_sum_not_rounded :
    numericValues [[("x", .vfloat (1001/1000))], [("x", .vfloat (2002/1000))]] "x"
        = [1001/1000, 2002/1000] ∧
    statsSum (analyze_numeric_column
        [[("x", .vfloat (1001/1000))], [("x", .vfloat (2002/1000))]] "x")
        = some (3003/1000) ∧
    round2 (3003/1000) = 3 ∧
    (3003/1000 : ℚ) ≠ 3 := by
  have hv : numericValues [[("x", .vfloat (1001/1000))], [("x", .vfloat (2002/1000))]] "x"
      = [1001/1000, 2002/1000] := by with_unfolding_all decide
  have hsort : List.insertionSort (· ≤ ·) [(1001/1000 : ℚ), 2002/1000]
      = [1001/1000, 2002/1000] := by with_unfolding_all decide
  refine ⟨hv, ?_, by with_unfolding_all decide, by norm_num⟩
  rw [analyze_numeric_column, hv]
  norm_num [statsSum, hsort]
  rw [if_neg (by simp)]

/-! ### C3: exact statistics and the rounding law -/

/-- The exact mean of a value list. -/
def exactMean (vs : List ℚ) : ℚ := vs.sum / (vs.length : ℚ)

/-- The exact median of a value list (midpoint of the two central elements of
the ascending sort for even length, the central element otherwise). -/
def exactMedian (vs : List ℚ) : ℚ :=
  let s := List.insertionSort (· ≤ ·) vs
  let n := s.length
  if n % 2 = 0 then (s.getD (n / 2 - 1) 0 + s.getD (n / 2) 0) / 2 else s.getD (n / 2) 0

/-- The exact population variance (divisor `n`). -/
def exactVariance (vs : List ℚ) : ℚ :=
  (vs.map (fun x => (x - exactMean vs) ^ 2)).sum / (vs.length : ℚ)

/-- `x` is the exact square root of `v` rounded to 2 decimal places:
`x = k/100` with the integer `k` within half a unit of `100√v`, stated by
squaring (`(k - 1/2)² ≤ 10000 v ≤ (k + 1/2)²`, scaled by 4). -/
def IsRound2Sqrt (x v : ℚ) : Prop :=
  ∃ k : ℕ, x = (k : ℚ) / 100 ∧
    (k = 0 ∨ (2 * (k : ℚ) - 1) ^ 2 ≤ 40000 * v) ∧
    40000 * v ≤ (2 * (k : ℚ) + 1) ^ 2

theorem isRound2Sqrt_round2sqrt (v : ℚ) (hv : 0 ≤ v) :
    IsRound2Sqrt (round2sqrt v) v := by
  have hq : (0 : ℚ) ≤ 10000 * v := by positivity
  have hmz : (((⌊(10000 * v : ℚ)⌋).toNat : ℤ) : ℚ) = ((⌊(10000 * v : ℚ)⌋ : ℤ) : ℚ) := by
    exact_mod_cast congrArg (fun z : ℤ => (z : ℚ))
      (Int.toNat_of_nonneg (Int.floor_nonneg.mpr hq))
  set q : ℚ := 10000 * v with hqdef
  set m : ℕ := (⌊q⌋).toNat with hmdef
  set f : ℕ := Nat.sqrt m with hfdef
  have hm1 : (m : ℚ) ≤ q := by
    calc (m : ℚ) = ((⌊q⌋ : ℤ) : ℚ) := by exact_mod_cast hmz
    _ ≤ q := Int.floor_le q
  have hm2 : q < (m : ℚ) + 1 := by
    calc q < ((⌊q⌋ : ℤ) : ℚ) + 1 := Int.lt_floor_add_one q
    _ = (m : ℚ) + 1 := by rw [show ((⌊q⌋ : ℤ) : ℚ) = (m : ℚ) from by exact_mod_cast hmz.symm]
  have hf1 : ((f : ℚ)) ^ 2 ≤ q := by
    have h0 : f * f ≤ m := Nat.sqrt_le m
    have h1 : ((f * f : ℕ) : ℚ) ≤ (m : ℚ) := by exact_mod_cast h0
    calc ((f : ℚ)) ^ 2 = ((f * f : ℕ) : ℚ) := by push_cast; ring
    _ ≤ (m : ℚ) := h1
    _ ≤ q := hm1
  have hf2 : q < ((f : ℚ) + 1) ^ 2 := by
    have h0 : m < (f + 1) * (f + 1) := Nat.lt_succ_sqrt m
    have h1 : (m : ℚ) + 1 ≤ (((f + 1) * (f + 1) : ℕ) : ℚ) := by exact_mod_cast Nat.succ_le_of_lt h0
    calc q < (m : ℚ) + 1 := hm2
    _ ≤ (((f + 1) * (f + 1) : ℕ) : ℚ) := h1
    _ = ((f : ℚ) + 1) ^ 2 := by push_cast; ring
  have hbr : (roundHalfSqrt q = f ∧ 4 * q ≤ ((2 * f + 1 : ℕ) : ℚ) ^ 2) ∨
      (roundHalfSqrt q = f + 1 ∧ ((2 * f + 1 : ℕ) : ℚ) ^ 2 ≤ 4 * q) := by
    rw [roundHalfSqrt]
    have hsf : sqrtFloorQ q = f := rfl
    rw [hsf]
    split_ifs with h1 h2 h3
    · exact Or.inl ⟨rfl, le_of_lt h1⟩
    · exact Or.inr ⟨rfl, le_of_lt h2⟩
    · exact Or.inl ⟨rfl, le_of_not_lt h2⟩
    · exact Or.inr ⟨rfl, le_of_not_lt h1⟩
  have hscale : 40000 * v = 4 * q := by rw [hqdef]; ring
  rcases hbr with ⟨hk, hb⟩ | ⟨hk, hb⟩
  · refine ⟨f, ?_, ?_, ?_⟩
    · rw [round2sqrt, ← hqdef, hk]
    · rcases Nat.eq_zero_or_pos f with hf0 | hf0
      · exact Or.inl hf0
      · refine Or.inr ?_
        have hfc : (1 : ℚ) ≤ (f : ℚ) := by exact_mod_cast hf0
        rw [hscale]
        nlinarith [hf1, hfc]
    · rw [hscale]
      calc 4 * q ≤ ((2 * f + 1 : ℕ) : ℚ) ^ 2 := hb
      _ = (2 * (f : ℚ) + 1) ^ 2 := by push_cast; ring
  · refine ⟨f + 1, ?_, ?_, ?_⟩
    · rw [round2sqrt, ← hqdef, hk]
    · refine Or.inr ?_
      rw [hscale]
      calc (2 * ((f + 1 : ℕ) : ℚ) - 1) ^ 2 = ((2 * f + 1 : ℕ) : ℚ) ^ 2 := by push_cast; ring
      _ ≤ 4 * q := hb
    · rw [hscale]
      have : q < ((f : ℚ) + 1) ^ 2 := hf2
      push_cast
      nlinarith [hf2]

theorem getLastD_mem (a : ℚ) (t : List ℚ) : t.getLastD a ∈ a :: t := by
  induction t generalizing a with
  | nil => simp
  | cons b t2 ih =>
    rw [List.getLastD_cons]
    exact List.mem_cons_of_mem a (ih b)

theorem sorted_head_le (a : ℚ) (t : List ℚ) (h : (a :: t).Sorted (· ≤ ·)) :
    ∀ x ∈ a :: t, a ≤ x := by
  intro x hx
  rcases List.mem_cons.mp hx with rfl | hx
  · exact le_refl x
  · exact (List.sorted_cons.mp h).1 x hx

theorem sorted_le_getLastD :
    ∀ (l : List ℚ) (d : ℚ), l.Sorted (· ≤ ·) → ∀ x ∈ l, x ≤ l.getLastD d := by
  intro l
  induction l with
  | nil => intro d _ x hx; simp at hx
  | cons a t ih =>
    intro d hs x hx
    rw [List.getLastD_cons]
    rcases List.mem_cons.mp hx with rfl | hx
    · cases t with
      | nil => simp
      | cons b t2 =>
        have hab : x ≤ b := (List.sorted_cons.mp hs).1 b (by simp)
        exact le_trans hab (ih x (List.sorted_cons.mp hs).2 b (by simp))
    · exact ih a (List.sorted_cons.mp hs).2 x hx

/-- C3 (amended): when the column has at least one numeric value, the fields
`mean`, `median`, `std_dev` and (when `count > 3`) `q1`/`q3` of
`analyze_numeric_column` equal the exact quantities rounded to 2 decimal
places, while `sum` — like `min`, `max` and `range` — retains original
precision: `sum` is the exact unrounded sum, `min`/`max` are the exact
extrema, `range` their difference, and `std_dev` is the exact `√variance`
rounded to 2 decimals. -/
theorem analyze_numeric_column_rounding (data : List Row) (column : String)
    (h : numericValues data column ≠ []) :
    ∃ s, analyze_numeric_column data column = .stats s ∧
      s.count = (numericValues data column).length ∧
      s.sum = (numericValues data column).sum ∧
      s.mean = round2 (exactMean (numericValues data column)) ∧
      s.median = round2 (exactMedian (numericValues data column)) ∧
      (s.min ∈ numericValues data column ∧ ∀ x ∈ numericValues data column, s.min ≤ x) ∧
      (s.max ∈ numericValues data column ∧ ∀ x ∈ numericValues data column, x ≤ s.max) ∧
      s.range = s.max - s.min ∧
      IsRound2Sqrt s.std_dev (exactVariance (numericValues data column)) ∧
      (3 < (numericValues data column).length →
        s.q1 = some (round2 ((List.insertionSort (· ≤ ·) (numericValues data column)).getD
          ((numericValues data column).length / 4) 0)) ∧
        s.q3 = some (round2 ((List.insertionSort (· ≤ ·) (numericValues data column)).getD
          (3 * (numericValues data column).length / 4) 0))) ∧
      ((numericValues data column).length ≤ 3 → s.q1 = none ∧ s.q3 = none) := by
  rw [analyze_numeric_column]
  dsimp only
  rw [if_neg h]
  set values := numericValues data column with hvals
  set vs := List.insertionSort (· ≤ ·) values with hvs
  have hperm : List.Perm vs values := List.perm_insertionSort _ values
  have hsorted : vs.Sorted (· ≤ ·) := List.sorted_insertionSort _ values
  have hlen : vs.length = values.length := hperm.length_eq
  have hsum : vs.sum = values.sum := hperm.sum_eq
  have hne : vs ≠ [] := by
    intro hc
    apply h
    have h0 : values.length = 0 := by rw [← hlen, hc]; rfl
    exact List.eq_nil_of_length_eq_zero h0
  obtain ⟨a, t, hvt⟩ : ∃ a t, vs = a :: t := by
    cases hc : vs with
    | nil => exact absurd hc hne
    | cons a t => exact ⟨a, t, rfl⟩
  refine ⟨_, rfl, hlen, hsum, ?_, ?_, ?_, ?_, rfl, ?_, ?_, ?_⟩
  · rw [exactMean, hsum, hlen]
  · rfl
  · constructor
    · exact hperm.mem_iff.mp (by rw [hvt]; simp)
    · intro x hx
      have hxv : x ∈ vs := hperm.mem_iff.mpr hx
      rw [hvt] at hxv ⊢
      simp only [List.headD_cons]
      exact sorted_head_le a t (by rw [hvt] at hsorted; exact hsorted) x hxv
  · constructor
    · rw [hvt, List.getLastD_cons]
      exact hperm.mem_iff.mp (by rw [hvt]; exact getLastD_mem a t)
    · intro x hx
      exact sorted_le_getLastD vs 0 hsorted x (hperm.mem_iff.mpr hx)
  · have hms : (vs.map (fun x => (x - values.sum / (values.length : ℚ)) ^ 2)).sum
        = (values.map (fun x => (x - values.sum / (values.length : ℚ)) ^ 2)).sum :=
      (hperm.map _).sum_eq
    have hvar : (vs.map (fun x => (x - vs.sum / (vs.length : ℚ)) ^ 2)).sum / (vs.length : ℚ)
        = exactVariance values := by
      rw [hsum, hlen, hms, exactVariance, exactMean]
    rw [hvar]
    refine isRound2Sqrt_round2sqrt _ ?_
    rw [exactVariance]
    apply div_nonneg
    · refine List.sum_nonneg ?_
      intro y hy
      obtain ⟨x, _, rfl⟩ := List.mem_map.mp hy
      positivity
    · positivity
  · intro h4
    rw [hlen]
    rw [if_pos h4, if_pos h4]
    exact ⟨rfl, rfl⟩
  · intro h3
    rw [hlen]
    rw [if_neg (show ¬ 3 < values.length by omega)]
    rw [if_neg (show ¬ 3 < values.length by omega)]
    exact ⟨rfl, rfl⟩

/-- The specification's example column `[1, 2, 3, 4]`. -/
def tbl4 : List Row :=
  [[("x", .vint 1)], [("x", .vint 2)], [("x", .vint 3)], [("x", .vint 4)]]

/-- Witness for C3 at the specification's example column `[1,2,3,4]`. -/
theorem analyze_numeric_column_rounding_witness :
    numericValues tbl4 "x" ≠ [] ∧
    ∃ s, analyze_numeric_column tbl4 "x" = .stats s ∧
      s.sum = (numericValues tbl4 "x").sum ∧
      s.mean = round2 (exactMean (numericValues tbl4 "x")) :=
  ⟨by with_unfolding_all decide,
   let ⟨s, h1, _, h2, h3, _⟩ :=
     analyze_numeric_column_rounding tbl4 "x" (by with_unfolding_all decide)
   ⟨s, h1, h2, h3⟩⟩

/-! ## Claim C1: `aggregate_data` with `avg` -/

/-- The first-seen-order list of distinct (under Python `==`) group keys: the
iteration order of the `groups` dict built by `aggregate_data`. -/
def firstSeenKeys (gb : String) (data : List Row) : List Value :=
  data.foldl (fun ks row =>
    if ks.any (fun k => pyEq k (rowGet row gb)) then ks else ks ++ [rowGet row gb]) []

/-- The contribution of one row to its group's value list: the coerced
aggregate-column value, the sentinel `1` for a failed coercion under `count`,
nothing otherwise (and nothing for a `None` cell). -/
def groupContrib (operation ac : String) (row : Row) : Option ℚ :=
  let v := rowGet row ac
  if v = .vnull then none
  else
    match pyFloat v with
    | some x => some x
    | none => if operation = "count" then some 1 else none

/-- The value list of the group keyed (under Python `==`) by `k`: the
contributions of the rows whose group-by cell equals `k`, in row order. -/
def groupValues (gb ac operation : String) (data : List Row) (k : Value) : List ℚ :=
  (data.filter (fun row => pyEq (rowGet row gb) k)).filterMap (groupContrib operation ac)

/-- The grouping dict described by the specification: first-seen key order,
each key paired with its group's value list. -/
def aggInv (gb ac operation : String) (p : List Row) : List (Value × List ℚ) :=
  (firstSeenKeys gb p).map (fun k => (k, groupValues gb ac operation p k))

theorem pyEq_refl (v : Value) : pyEq v v = true := by
  cases v <;> simp [pyEq, numView]

theorem pyEq_symm (a b : Value) : pyEq a b = pyEq b a := by
  cases a <;> cases b <;> simp [pyEq, numView, eq_comm]

theorem pyEq_trans (a b c : Value) (h1 : pyEq a b = true) (h2 : pyEq b c = true) :
    pyEq a c = true := by
  cases a <;> cases b <;> cases c <;> simp_all [pyEq, numView]

theorem firstSeenKeys_append (gb : String) (p : List Row) (r : Row) :
    firstSeenKeys gb (p ++ [r]) =
      if (firstSeenKeys gb p).any (fun k => pyEq k (rowGet r gb)) then firstSeenKeys gb p
      else firstSeenKeys gb p ++ [rowGet r gb] := by
  rw [firstSeenKeys, List.foldl_append]
  rfl

theorem firstSeenKeys_pairwise (gb : String) (data : List Row) :
    List.Pairwise (fun a b => pyEq a b = false) (firstSeenKeys gb data) := by
  suffices haux : ∀ (rs : List Row) (ks : List Value),
      List.Pairwise (fun a b => pyEq a b = false) ks →
      List.Pairwise (fun a b => pyEq a b = false)
        (rs.foldl (fun ks row =>
          if ks.any (fun k => pyEq k (rowGet row gb)) then ks else ks ++ [rowGet row gb]) ks) by
    exact haux data [] (by simp)
  intro rs
  induction rs with
  | nil => intro ks h; exact h
  | cons r rest ih =>
    intro ks h
    rw [List.foldl_cons]
    apply ih
    by_cases hseen : ks.any (fun k => pyEq k (rowGet r gb)) = true
    · rw [if_pos hseen]; exact h
    · rw [if_neg hseen]
      rw [List.pairwise_append]
      refine ⟨h, by simp, ?_⟩
      intro a ha b hb
      rw [List.mem_singleton] at hb
      subst hb
      rw [List.any_eq_true] at hseen
      push_neg at hseen
      have := hseen a ha
      simpa using this

theorem firstSeenKeys_any (gb : String) (data : List Row) (key : Value) :
    (firstSeenKeys gb data).any (fun k => pyEq k key)
      = data.any (fun row => pyEq (rowGet row gb) key) := by
  suffices haux : ∀ (rs : List Row) (ks : List Value),
      (rs.foldl (fun ks row =>
          if ks.any (fun k => pyEq k (rowGet row gb)) then ks else ks ++ [rowGet row gb]) ks).any
        (fun k => pyEq k key)
        = (ks.any (fun k => pyEq k key) || rs.any (fun row => pyEq (rowGet row gb) key)) by
    have := haux data []
    simpa [firstSeenKeys] using this
  intro rs
  induction rs with
  | nil => intro ks; simp
  | cons r rest ih =>
    intro ks
    rw [List.foldl_cons, ih, List.any_cons]
    by_cases hseen : ks.any (fun k => pyEq k (rowGet r gb)) = true
    · rw [if_pos hseen]
      by_cases hkr : pyEq (rowGet r gb) key = true
      · have hks : ks.any (fun k => pyEq k key) = true := by
          rw [List.any_eq_true] at hseen ⊢
          obtain ⟨k, hk, hpk⟩ := hseen
          exact ⟨k, hk, pyEq_trans k (rowGet r gb) key hpk hkr⟩
        rw [hks, hkr]
        simp
      · simp only [Bool.not_eq_true] at hkr
        rw [hkr]
        simp
    · rw [if_neg hseen, List.any_append]
      simp [Bool.or_assoc]

theorem groupValues_append (gb ac operation : String) (p : List Row) (r : Row) (k : Value) :
    groupValues gb ac operation (p ++ [r]) k
      = groupValues gb ac operation p k ++
        (if pyEq (rowGet r gb) k = true then (groupContrib operation ac r).toList else []) := by
  rw [groupValues, groupValues, List.filter_append, List.filterMap_append]
  congr 1
  by_cases hp : pyEq (rowGet r gb) k = true
  · rw [if_pos hp]
    have hfil : List.filter (fun row => pyEq (rowGet row gb) k) [r] = [r] := by simp [hp]
    rw [hfil]
    cases hg : groupContrib operation ac r <;> simp [List.filterMap, hg, Option.toList]
  · rw [if_neg hp]
    have hfil : List.filter (fun row => pyEq (rowGet row gb) k) [r] = [] := by simp [hp]
    rw [hfil]
    rfl

theorem addVal_map (key : Value) (x : ℚ) (V : Value → List ℚ) :
    ∀ ks : List Value, List.Pairwise (fun a b => pyEq a b = false) ks →
      ks.any (fun k => pyEq k key) = true →
      addVal (ks.map (fun k => (k, V k))) key x
        = ks.map (fun k => (k, V k ++ if pyEq key k = true then [x] else [])) := by
  intro ks
  induction ks with
  | nil => intro _ hseen; simp at hseen
  | cons k0 rest ih =>
    intro hpw hseen
    rw [List.map_cons, List.map_cons, addVal]
    by_cases h0 : pyEq k0 key = true
    · rw [if_pos h0]
      have h0s : pyEq key k0 = true := by rw [pyEq_symm]; exact h0
      rw [if_pos h0s]
      congr 1
      refine (List.map_congr_left ?_).symm
      intro k hk
      have hf : pyEq k0 k = false := (List.pairwise_cons.mp hpw).1 k hk
      have hkk : pyEq key k = false := by
        by_contra hc
        simp only [Bool.not_eq_false] at hc
        have htr := pyEq_trans k0 key k h0 hc
        rw [htr] at hf
        exact absurd hf (by simp)
      rw [hkk]
      simp
    · rw [if_neg h0]
      have h0s : pyEq key k0 = false := by
        rw [pyEq_symm]
        simpa using h0
      have hseen2 : rest.any (fun k => pyEq k key) = true := by
        rw [List.any_cons] at hseen
        simpa [h0] using hseen
      rw [ih (List.pairwise_cons.mp hpw).2 hseen2, h0s]
      simp

theorem addVal_append_last (key : Value) (x : ℚ) (vs : List ℚ) :
    ∀ l : List (Value × List ℚ), (∀ q ∈ l, pyEq q.1 key = false) →
      addVal (l ++ [(key, vs)]) key x = l ++ [(key, vs ++ [x])] := by
  intro l
  induction l with
  | nil => intro _; simp [addVal, pyEq_refl]
  | cons q l2 ih =>
    intro hall
    obtain ⟨k0, vs0⟩ := q
    rw [List.cons_append, addVal]
    have h0 : pyEq k0 key = false := hall (k0, vs0) (by simp)
    rw [if_neg (by simp [h0]), ih (fun q hq => hall q (List.mem_cons_of_mem _ hq))]
    rfl

theorem aggInv_append (gb ac operation : String) (p : List Row) (r : Row) :
    aggStep operation gb ac (aggInv gb ac operation p) r = aggInv gb ac operation (p ++ [r]) := by
  have hpw := firstSeenKeys_pairwise gb p
  have hany : ((aggInv gb ac operation p).any (fun q => pyEq q.1 (rowGet r gb)))
      = (firstSeenKeys gb p).any (fun k => pyEq k (rowGet r gb)) := by
    rw [aggInv]
    induction firstSeenKeys gb p with
    | nil => rfl
    | cons k ks ih => simp [List.any_cons, ih]
  simp only [aggStep]
  rw [hany]
  by_cases hseen : (firstSeenKeys gb p).any (fun k => pyEq k (rowGet r gb)) = true
  · rw [if_pos hseen]
    have hfsk : firstSeenKeys gb (p ++ [r]) = firstSeenKeys gb p := by
      rw [firstSeenKeys_append, if_pos hseen]
    have hGmap : aggInv gb ac operation (p ++ [r])
        = (firstSeenKeys gb p).map (fun k => (k, groupValues gb ac operation p k ++
            (if pyEq (rowGet r gb) k = true then (groupContrib operation ac r).toList else []))) := by
      rw [aggInv, hfsk]
      exact List.map_congr_left (fun k _ => by rw [groupValues_append])
    by_cases hnull : rowGet r ac = Value.vnull
    · rw [if_pos hnull, hGmap]
      have hcr : groupContrib operation ac r = none := by simp [groupContrib, hnull]
      rw [hcr, aggInv]
      exact List.map_congr_left (fun k _ => by simp)
    · rw [if_neg hnull]
      cases hflo : pyFloat (rowGet r ac) with
      | some x =>
        dsimp only
        have hcr : groupContrib operation ac r = some x := by
          simp [groupContrib, hnull, hflo]
        rw [hGmap, hcr]
        have hav := addVal_map (rowGet r gb) x (groupValues gb ac operation p)
          (firstSeenKeys gb p) hpw hseen
        rw [aggInv, hav]
        exact List.map_congr_left (fun k _ => by simp [Option.toList])
      | none =>
        dsimp only
        by_cases hcnt : operation = "count"
        · rw [if_pos hcnt]
          have hcr : groupContrib operation ac r = some 1 := by
            simp [groupContrib, hnull, hflo, hcnt]
          rw [hGmap, hcr]
          have hav := addVal_map (rowGet r gb) 1 (groupValues gb ac operation p)
            (firstSeenKeys gb p) hpw hseen
          rw [aggInv, hav]
          exact List.map_congr_left (fun k _ => by simp [Option.toList])
        · rw [if_neg hcnt]
          have hcr : groupContrib operation ac r = none := by
            simp [groupContrib, hnull, hflo, hcnt]
          rw [hGmap, hcr, aggInv]
          exact List.map_congr_left (fun k _ => by simp)
  · rw [if_neg hseen]
    have hfsk : firstSeenKeys gb (p ++ [r]) = firstSeenKeys gb p ++ [rowGet r gb] := by
      rw [firstSeenKeys_append, if_neg hseen]
    have hnotin : ∀ k ∈ firstSeenKeys gb p, pyEq k (rowGet r gb) = false := by
      intro k hk
      by_contra hc
      simp only [Bool.not_eq_false] at hc
      exact hseen (List.any_eq_true.mpr ⟨k, hk, hc⟩)
    have hGold : groupValues gb ac operation p (rowGet r gb) = [] := by
      rw [groupValues]
      have hfil : List.filter (fun row => pyEq (rowGet row gb) (rowGet r gb)) p = [] := by
        rw [List.filter_eq_nil_iff]
        intro row hrow hc
        have hdata : p.any (fun row => pyEq (rowGet row gb) (rowGet r gb)) = true :=
          List.any_eq_true.mpr ⟨row, hrow, hc⟩
        rw [← firstSeenKeys_any] at hdata
        exact hseen hdata
      rw [hfil]
      rfl
    have hqmem : ∀ q ∈ aggInv gb ac operation p, pyEq q.1 (rowGet r gb) = false := by
      intro q hq
      rw [aggInv] at hq
      obtain ⟨k, hk, rfl⟩ := List.mem_map.mp hq
      exact hnotin k hk
    have hGmap : aggInv gb ac operation (p ++ [r])
        = aggInv gb ac operation p ++ [(rowGet r gb, (groupContrib operation ac r).toList)] := by
      rw [aggInv, hfsk, List.map_append, aggInv]
      congr 1
      · exact List.map_congr_left (fun k hk => by
          rw [groupValues_append]
          have hke : pyEq (rowGet r gb) k = false := by
            rw [pyEq_symm]; exact hnotin k hk
          rw [hke]
          simp)
      · simp [groupValues_append, hGold, pyEq_refl]
    by_cases hnull : rowGet r ac = Value.vnull
    · rw [if_pos hnull, hGmap]
      have hcr : groupContrib operation ac r = none := by simp [groupContrib, hnull]
      rw [hcr]
      rfl
    · rw [if_neg hnull]
      cases hflo : pyFloat (rowGet r ac) with
      | some x =>
        dsimp only
        have hcr : groupContrib operation ac r = some x := by
          simp [groupContrib, hnull, hflo]
        rw [addVal_append_last (rowGet r gb) x [] (aggInv gb ac operation p) hqmem,
          hGmap, hcr]
        simp [Option.toList]
      | none =>
        dsimp only
        by_cases hcnt : operation = "count"
        · rw [if_pos hcnt]
          have hcr : groupContrib operation ac r = some 1 := by
            simp [groupContrib, hnull, hflo, hcnt]
          rw [addVal_append_last (rowGet r gb) 1 [] (aggInv gb ac operation p) hqmem,
            hGmap, hcr]
          simp [Option.toList]
        · rw [if_neg hcnt]
          have hcr : groupContrib operation ac r = none := by
            simp [groupContrib, hnull, hflo, hcnt]
          rw [hGmap, hcr]
          rfl

theorem buildGroups_eq (data : List Row) (gb ac operation : String) :
    buildGroups data gb ac operation = aggInv gb ac operation data := by
  suffices haux : ∀ (rs p : List Row),
      List.foldl (aggStep operation gb ac) (aggInv gb ac operation p) rs
        = aggInv gb ac operation (p ++ rs) by
    calc buildGroups data gb ac operation
        = List.foldl (aggStep operation gb ac) (aggInv gb ac operation []) data := rfl
      _ = aggInv gb ac operation ([] ++ data) := haux data []
      _ = aggInv gb ac operation data := by rw [List.nil_append]
  intro rs
  induction rs with
  | nil => intro p; simp
  | cons r rest ih =>
    intro p
    rw [List.foldl_cons, aggInv_append, ih (p ++ [r]), List.append_assoc]
    rfl

theorem firstSeenKeys_mem (gb : String) (data : List Row) :
    ∀ k ∈ firstSeenKeys gb data, ∃ row ∈ data, k = rowGet row gb := by
  suffices haux : ∀ (rs : List Row) (ks : List Value),
      ∀ k ∈ rs.foldl (fun ks row =>
          if ks.any (fun k => pyEq k (rowGet row gb)) then ks else ks ++ [rowGet row gb]) ks,
        k ∈ ks ∨ ∃ row ∈ rs, k = rowGet row gb by
    intro k hk
    rcases haux data [] k hk with h | h
    · simp at h
    · exact h
  intro rs
  induction rs with
  | nil => intro ks k hk; exact Or.inl hk
  | cons r rest ih =>
    intro ks k hk
    rw [List.foldl_cons] at hk
    rcases ih _ k hk with h | h
    · by_cases hseen : ks.any (fun k => pyEq k (rowGet r gb)) = true
      · rw [if_pos hseen] at h
        exact Or.inl h
      · rw [if_neg hseen] at h
        rcases List.mem_append.mp h with h2 | h2
        · exact Or.inl h2
        · rw [List.mem_singleton] at h2
          exact Or.inr ⟨r, by simp, h2⟩
    · obtain ⟨row, hrow, hk2⟩ := h
      exact Or.inr ⟨row, List.mem_cons_of_mem _ hrow, hk2⟩

theorem filterMap_eq_map_of_forall_some {α β : Type} (f : α → Option β) (g : α → β) :
    ∀ l : List α, (∀ a ∈ l, f a = some (g a)) → l.filterMap f = l.map g := by
  intro l
  induction l with
  | nil => intro _; rfl
  | cons a t ih =>
    intro h
    rw [List.filterMap_cons, h a (by simp), List.map_cons,
      ih (fun b hb => h b (List.mem_cons_of_mem _ hb))]

/-- C1: when every cell of the aggregate column is numeric-coercible,
`aggregate_data` with operation `avg` partitions the rows by the raw
(Python-`==`) value of the group-by column in first-seen order, and emits,
for each group in that order, a record mapping the group-by name to the
group key and `avg(<column>)` to the group's sum divided by its count,
rounded to 2 decimals.  (The hypothesis `gb ≠ "avg(" ++ ac ++ ")"` rules out
the degenerate dict-key collision of the two record fields.) -/
theorem aggregate_avg_spec (data : List Row) (gb ac : String)
    (hname : gb ≠ "avg(" ++ ac ++ ")")
    (hcoerce : ∀ row ∈ data, (pyFloat (rowGet row ac)).isSome = true) :
    aggregate_data data gb ac "avg"
      = (firstSeenKeys gb data).map (fun k =>
          [(gb, k),
           ("avg(" ++ ac ++ ")",
            Value.vfloat (round2 ((groupValues gb ac "avg" data k).sum
              / ((groupValues gb ac "avg" data k).length : ℚ))))]) := by
  rw [aggregate_data, buildGroups_eq, aggInv, List.filterMap_map]
  apply filterMap_eq_map_of_forall_some
  intro k hk
  have hne : groupValues gb ac "avg" data k ≠ [] := by
    obtain ⟨row, hrow, rfl⟩ := firstSeenKeys_mem gb data k hk
    intro hnil
    have hmemf : row ∈ data.filter (fun row2 => pyEq (rowGet row2 gb) (rowGet row gb)) :=
      List.mem_filter.mpr ⟨hrow, pyEq_refl _⟩
    have hcontrib : ∃ x, groupContrib "avg" ac row = some x := by
      have hs := hcoerce row hrow
      rw [Option.isSome_iff_exists] at hs
      obtain ⟨x, hx⟩ := hs
      have hnn : rowGet row ac ≠ Value.vnull := by
        intro hv
        rw [hv] at hx
        simp [pyFloat] at hx
      exact ⟨x, by simp [groupContrib, hnn, hx]⟩
    obtain ⟨x, hx⟩ := hcontrib
    have hxin : x ∈ groupValues gb ac "avg" data (rowGet row gb) :=
      List.mem_filterMap.mpr ⟨row, hmemf, hx⟩
    rw [hnil] at hxin
    exact absurd hxin (List.not_mem_nil x)
  show groupResult "avg" gb ac k (groupValues gb ac "avg" data k) = some _
  rw [groupResult, if_neg hne]
  rw [if_neg (by decide), if_pos (by decide)]
  rw [mkAggRow]
  rw [show ("avg" : String) ++ "(" = "avg(" from rfl]
  rw [if_neg hname]

/-- The specification's example table: groups `A ↦ [1, 3]`, `B ↦ [2]`. -/
def tblAgg : List Row :=
  [[("group", .vstr (toL "A")), ("col", .vint 1)],
   [("group", .vstr (toL "B")), ("col", .vint 2)],
   [("group", .vstr (toL "A")), ("col", .vint 3)]]

/-- Witness for C1 at the specification's example grouping. -/
theorem aggregate_avg_spec_witness :
    ("group" : String) ≠ "avg(" ++ "col" ++ ")" ∧
    (∀ row ∈ tblAgg, (pyFloat (rowGet row "col")).isSome = true) ∧
    aggregate_data tblAgg "group" "col" "avg"
      = (firstSeenKeys "group" tblAgg).map (fun k =>
          [("group", k),
           ("avg(" ++ "col" ++ ")",
            Value.vfloat (round2 ((groupValues "group" "col" "avg" tblAgg k).sum
              / ((groupValues "group" "col" "avg" tblAgg k).length : ℚ))))]) :=
  ⟨by decide, by decide, aggregate_avg_spec tblAgg "group" "col" (by decide) (by decide)⟩
